import Mathlib

/-!
# Tabi Script — verification of the route-optimization / sync engine spec

Shallow embedding of the Tabi Script repository's executable fragments
(the Supabase error handler and the rate-limiting middleware from the
design documents) together with models of the destination route
optimization and schedule-conflict reconciliation engine described by
the specification.  Theorems at the end settle the specification's
claims against these definitions.
-/

set_option maxHeartbeats 1000000

namespace TabiScript

/-! ## JavaScript value helpers

The design documents' snippets are TypeScript; `a || b` falls through on
`undefined`, `null` and the empty string, which we model explicitly. -/

/-- JS `s || dflt` for an optional string: `none` and `""` are falsy. -/
def jsOrString (s : Option String) (dflt : String) : String :=
  match s with
  | some v => if v = "" then dflt else v
  | none => dflt

/-! ## Supabase error handling (design doc, `handleSupabaseError`)

Embeds the TypeScript utility

```
export const handleSupabaseError = (error: any): never => {
  if (error.code === 'PGRST301') {
    throw new SupabaseError('Resource not found', '404', error)
  }
  if (error.code === '23505') {
    throw new SupabaseError('Resource already exists', '409', error)
  }
  throw new SupabaseError(error.message || 'Database error', '500', error)
}
```

The function never returns normally; the thrown `SupabaseError` is the
function's value in this embedding. -/

/-- The untyped `error` argument: the fields the handler inspects. -/
structure PgError where
  code : Option String
  message : Option String
  deriving DecidableEq

/-- `SupabaseError extends Error` with `code` and `details`; the
constructor sets `name = 'SupabaseError'`. -/
structure SupabaseError where
  name : String
  message : String
  code : String
  details : PgError
  deriving DecidableEq

def handleSupabaseError (error : PgError) : SupabaseError :=
  if error.code = some "PGRST301" then
    { name := "SupabaseError", message := "Resource not found", code := "404", details := error }
  else if error.code = some "23505" then
    { name := "SupabaseError", message := "Resource already exists", code := "409", details := error }
  else
    { name := "SupabaseError", message := jsOrString error.message "Database error",
      code := "500", details := error }

/-! ## Rate-limiting middleware (design doc, `middleware`)

Embeds the Next.js middleware snippet: a `Map` from client IP to the
list of request timestamps, a 15-minute window and a 100-request cap. -/

def windowMs : Int := 15 * 60 * 1000

def maxRequests : Nat := 100

/-- The fields of `NextRequest` the middleware reads. -/
structure NextRequest where
  reqIp : Option String
  xForwardedFor : Option String
  deriving DecidableEq

/-- `request.ip || request.headers.get('x-forwarded-for') || 'anonymous'`. -/
def clientIp (r : NextRequest) : String :=
  jsOrString r.reqIp (jsOrString r.xForwardedFor "anonymous")

/-- The in-memory `rateLimiter` map, as an association list. -/
abbrev RateLimiter : Type := List (String × List Int)

/-- `rateLimiter.get(ip) || []`. -/
def getEntry (m : RateLimiter) (k : String) : List Int :=
  ((m.find? (fun p => p.1 == k)).map (fun p => p.2)).getD []

/-- `rateLimiter.set(ip, v)`: replace the entry or insert a new one. -/
def setEntry (m : RateLimiter) (k : String) (v : List Int) : RateLimiter :=
  if m.any (fun p => p.1 == k) then
    m.map (fun p => if p.1 == k then (k, v) else p)
  else
    m ++ [(k, v)]

/-- Responses the middleware can produce. -/
inductive MwResponse
  | tooManyRequests (status : Nat) (body : String) (retryAfter : String)
  | next
  deriving DecidableEq

/-- The middleware body: returns the response and the updated map. -/
def middleware (limiter : RateLimiter) (request : NextRequest) (now : Int) :
    MwResponse × RateLimiter :=
  let ip := clientIp request
  let userRequests := getEntry limiter ip
  let recentRequests := userRequests.filter (fun time => now - time < windowMs)
  if maxRequests ≤ recentRequests.length then
    (.tooManyRequests 429 "Too Many Requests" "900", limiter)
  else
    (.next, setEntry limiter ip (recentRequests ++ [now]))

/-! ## Route optimization (RouteOptimizer, spec §4.2)

Modelled from the spec: the repository contains no implementation of
`RouteOptimizer`; the design documents only declare the `MapAPI`
surface and the `destinations` table.  The model below follows spec
§4.2 word for word: anchors (destinations with a fixed date) partition
the input into segments; each segment is ordered by a nearest-neighbor
construction seeded from the preceding anchor (or the segment's first
element at the leading boundary) followed by 2-opt improvement passes
that stop at the first non-improving scan or at the configured
iteration cap; construction ties are broken by ascending destination
identifier; fewer than two destinations yield the trivial sequence and
a destination count above the configured cap yields `CapacityError`.
Edge costs come from `DistanceCache` and are supplied as an explicit
function parameter (`RouteEdge` is keyed by ordered
(origin, destination) pairs, so costs need not be symmetric). -/

/-- A destination: identity, coordinates, optional fixed-date anchor. -/
structure Destination where
  id : Nat
  lat : Int
  lon : Int
  fixedDate : Option Nat
  deriving DecidableEq

/-- An anchor is a destination with a fixed date. -/
def isAnchor (d : Destination) : Bool := d.fixedDate.isSome

/-- Total cost of visiting a sequence in order, summing consecutive
edges under the supplied edge-cost function. -/
def totalDist (dist : Destination → Destination → Nat) : List Destination → Nat
  | [] => 0
  | [_] => 0
  | a :: b :: rest => dist a b + totalDist dist (b :: rest)

/-- The nearest-neighbor chooser: keep `best` unless `x` is strictly
closer, or equally close with a smaller destination id. -/
def nnPick (dist : Destination → Destination → Nat) (cur best x : Destination) : Destination :=
  if dist cur x < dist cur best ∨ (dist cur x = dist cur best ∧ x.id < best.id) then x
  else best

/-- Nearest-neighbor selection: the candidate minimizing
(edge cost, destination id) lexicographically — ties broken by
ascending destination identifier. -/
def selectMin (dist : Destination → Destination → Nat) (cur : Destination) :
    List Destination → Option Destination
  | [] => none
  | c :: cs => some (cs.foldl (nnPick dist cur) c)

/-- Nearest-neighbor construction: repeatedly append the closest
remaining destination to the current position (`fuel` bounds the
recursion; it is instantiated with the candidate count). -/
def nnBuild (dist : Destination → Destination → Nat) :
    Nat → Destination → List Destination → List Destination
  | 0, _, _ => []
  | fuel + 1, cur, rest =>
    match selectMin dist cur rest with
    | none => []
    | some c => c :: nnBuild dist fuel c (rest.erase c)

/-- The construction-phase order for one segment with no left anchor:
nearest-neighbor growth seeded from the segment's first destination. -/
def nnConstruct (dist : Destination → Destination → Nat) :
    List Destination → List Destination
  | [] => []
  | s :: rest => s :: nnBuild dist rest.length s rest

/-- Reverse the sub-run of positions `i..j` (a candidate 2-opt move). -/
def reverseSeg (l : List Destination) (i j : Nat) : List Destination :=
  l.take i ++ ((l.drop i).take (j + 1 - i)).reverse ++ l.drop (j + 1)

/-- All position pairs `i < j` of an `n`-element sequence, scanned in
ascending order. -/
def allPairs (n : Nat) : List (Nat × Nat) :=
  (List.range n).flatMap (fun i =>
    (List.range n).filterMap (fun j => if i < j then some (i, j) else none))

/-- Scan the candidate moves in order and return the first strictly
improving reversal, if any. -/
def findImproving (dist : Destination → Destination → Nat) (l : List Destination) :
    List (Nat × Nat) → Option (List Destination)
  | [] => none
  | p :: ps =>
    if totalDist dist (reverseSeg l p.1 p.2) < totalDist dist l then
      some (reverseSeg l p.1 p.2)
    else findImproving dist l ps

/-- One 2-opt improvement step: the first improving reversal. -/
def twoOptStep (dist : Destination → Destination → Nat) (l : List Destination) :
    Option (List Destination) :=
  findImproving dist l (allPairs l.length)

/-- 2-opt improvement: apply improving reversals until none is found or
the iteration cap is reached. -/
def twoOptIter (dist : Destination → Destination → Nat) :
    Nat → List Destination → List Destination
  | 0, l => l
  | k + 1, l =>
    match twoOptStep dist l with
    | none => l
    | some l' => twoOptIter dist k l'

/-- Split the input at its anchors: the leading run of non-anchored
destinations, then one group per anchor holding the anchor and the
non-anchored run that follows it (spec glossary: a segment is a maximal
run of non-anchored destinations between anchors or sequence ends). -/
def splitSegs : List Destination → List Destination × List (Destination × List Destination)
  | [] => ([], [])
  | d :: rest =>
    if isAnchor d then ([], (d, (splitSegs rest).1) :: (splitSegs rest).2)
    else (d :: (splitSegs rest).1, (splitSegs rest).2)

/-- Solve one segment: nearest-neighbor construction (seeded from the
left anchor when there is one) followed by capped 2-opt improvement. -/
def solveSeg (dist : Destination → Destination → Nat) (iterCap : Nat) :
    Option Destination → List Destination → List Destination
  | none, seg => twoOptIter dist iterCap (nnConstruct dist seg)
  | some a, seg => twoOptIter dist iterCap (nnBuild dist seg.length a seg)

/-- The optimization algorithm proper: solve every segment and emit the
anchors unmoved, in their original positions between segments. -/
def optimizeCore (dist : Destination → Destination → Nat) (iterCap : Nat)
    (ds : List Destination) : List Destination :=
  solveSeg dist iterCap none (splitSegs ds).1 ++
    (splitSegs ds).2.flatMap (fun g => g.1 :: solveSeg dist iterCap (some g.1) g.2)

inductive OptError
  | capacityError
  deriving DecidableEq

/-- The ordered sequence together with its summed distance/duration. -/
structure OptResult where
  sequence : List Destination
  totalDistance : Nat
  totalDuration : Nat
  deriving DecidableEq

/-- Optimizer configuration: destination-count cap and 2-opt cap. -/
structure OptConfig where
  cap : Nat
  iterCap : Nat
  deriving DecidableEq

/-- `RouteOptimizer.optimize` (spec §4.2): trivial sequence below two
destinations, `CapacityError` above the configured cap, otherwise the
segment-wise nearest-neighbor + 2-opt ordering. -/
def optimize (dist dur : Destination → Destination → Nat) (cfg : OptConfig)
    (ds : List Destination) : Except OptError OptResult :=
  if ds.length < 2 then .ok ⟨ds, totalDist dist ds, totalDist dur ds⟩
  else if cfg.cap < ds.length then .error .capacityError
  else
    .ok ⟨optimizeCore dist cfg.iterCap ds,
      totalDist dist (optimizeCore dist cfg.iterCap ds),
      totalDist dur (optimizeCore dist cfg.iterCap ds)⟩

/-- Chronological comparison on optional fixed dates: vacuously true
unless both destinations are anchors. -/
def dateLE (a b : Destination) : Bool :=
  match a.fixedDate, b.fixedDate with
  | some x, some y => x ≤ y
  | _, _ => true

/-- The sequence's fixed dates are nondecreasing (chronological order). -/
def chronoSorted : List Destination → Bool
  | [] => true
  | [_] => true
  | a :: b :: t => dateLE a b && chronoSorted (b :: t)

/-- Lexicographic comparison (edge cost, then destination id) used to
state the construction phase's tie-breaking rule. -/
def lexLE (dist : Destination → Destination → Nat) (cur a b : Destination) : Prop :=
  dist cur a < dist cur b ∨ (dist cur a = dist cur b ∧ a.id ≤ b.id)

/-! ## Concrete instances used by counterexamples and witnesses -/

/-- Manhattan metric on the embedded coordinates: a symmetric metric,
standing in for provider travel distances. -/
def cexManhattan (a b : Destination) : Nat :=
  (a.lat - b.lat).natAbs + (a.lon - b.lon).natAbs

/-- Six anchor-free destinations whose input order is shorter than the
2-opt local optimum the optimizer converges to. -/
def cexDs : List Destination :=
  [⟨0, 0, 0, none⟩, ⟨1, 4, 0, none⟩, ⟨2, 8, 0, none⟩,
   ⟨3, 8, 6, none⟩, ⟨4, 6, 3, none⟩, ⟨5, 2, 3, none⟩]

/-- A generous configuration: the destination cap and iteration cap are
far from binding on `cexDs` (the 2-opt loop converges naturally). -/
def cexCfg : OptConfig := ⟨20, 200⟩

/-- The optimizer's output on `cexDs`: ordering (0,1,5,4,2,3) of total
distance 24, whereas the input order has total distance 23. -/
def cexResult : OptResult :=
  ⟨[⟨0, 0, 0, none⟩, ⟨1, 4, 0, none⟩, ⟨5, 2, 3, none⟩,
    ⟨4, 6, 3, none⟩, ⟨2, 8, 0, none⟩, ⟨3, 8, 6, none⟩], 24, 24⟩

/-- Destinations with two anchors (fixed dates 1 and 3) interleaved
with non-anchored destinations, for the anchor-order witness. -/
def wAnchorDs : List Destination :=
  [⟨10, 0, 0, none⟩, ⟨1, 4, 0, some 1⟩, ⟨11, 6, 1, none⟩,
   ⟨12, 2, 2, none⟩, ⟨2, 8, 6, some 3⟩, ⟨13, 9, 9, none⟩]

/-- The optimizer's output on `wAnchorDs`. -/
def wAnchorRes : OptResult :=
  ⟨[⟨10, 0, 0, none⟩, ⟨1, 4, 0, some 1⟩, ⟨11, 6, 1, none⟩,
    ⟨12, 2, 2, none⟩, ⟨2, 8, 6, some 3⟩, ⟨13, 9, 9, none⟩], 26, 26⟩

instance {ε α : Type} [DecidableEq ε] [DecidableEq α] : DecidableEq (Except ε α) := fun x y =>
  match x, y with
  | .ok a, .ok b =>
    if h : a = b then .isTrue (by rw [h]) else .isFalse (fun hc => by cases hc; exact h rfl)
  | .ok _, .error _ => .isFalse (fun hc => Except.noConfusion hc)
  | .error _, .ok _ => .isFalse (fun hc => Except.noConfusion hc)
  | .error e, .error f =>
    if h : e = f then .isTrue (by rw [h]) else .isFalse (fun hc => by cases hc; exact h rfl)

/-! ## Conflict resolution (ConflictResolver, spec §4.4)

Modelled from the spec: the repository contains no implementation of
`ConflictResolver`; the design documents only list the offline-sync
task.  Event payloads are field maps (association lists); the server
records, per field, the version at which it last changed, so "what
changed on the server since `baseVersion`" is the set of fields whose
last-change version exceeds the mutation's `baseVersion`. -/

/-- A field map: field name to (numeric) value. -/
abbrev Fields : Type := List (String × Nat)

/-- Look a field up. -/
def getField (fs : Fields) (k : String) : Option Nat :=
  (fs.find? (fun p => p.1 == k)).map (fun p => p.2)

/-- Set a field, replacing any previous binding. -/
def setField (fs : Fields) (k : String) (v : Nat) : Fields :=
  (k, v) :: fs.filter (fun p => p.1 != k)

/-- Apply a change set left to right. -/
def applyChanges (fs : Fields) : List (String × Nat) → Fields
  | [] => fs
  | c :: cs => applyChanges (setField fs c.1 c.2) cs

/-- The server's authoritative copy of a ScheduleEvent: version stamp,
current field values, per-field last-change versions, and the
`Conflicted` marker set by unresolved merges. -/
structure ServerEvent where
  version : Nat
  fields : Fields
  fieldVersions : Fields
  conflicted : Bool
  deriving DecidableEq

/-- The fields changed on the server since `base` (spec §4.4). -/
def serverChangedSince (s : ServerEvent) (base : Nat) : List String :=
  (s.fieldVersions.filter (fun p => base < p.2)).map (fun p => p.1)

inductive OpKind
  | create
  | update
  | delete
  deriving DecidableEq

/-- A `PendingMutation` (spec §3). -/
structure LocalMutation where
  localId : Nat
  idempotencyKey : String
  opKind : OpKind
  targetId : Nat
  changes : List (String × Nat)
  baseVersion : Nat
  deriving DecidableEq

/-- One retained conflict: the field with both candidate values. -/
structure ConflictDetail where
  field : String
  localValue : Nat
  serverValue : Option Nat
  deriving DecidableEq

/-- `merge`'s tagged outcome (spec §4.4, §9). -/
inductive MergeResult
  | applied (newVersion : Nat) (fields : Fields)
  | conflicted (details : List ConflictDetail)
  | rejected (reason : String)
  deriving DecidableEq

/-- The conflict details surfaced on overlapping changes: every locally
changed field that the server also changed, with the local candidate
value and the server's current candidate value. -/
def conflictDetails (lm : LocalMutation) (s : ServerEvent) : List ConflictDetail :=
  (lm.changes.filter (fun c => (serverChangedSince s lm.baseVersion).contains c.1)).map
    (fun c => ⟨c.1, c.2, getField s.fields c.1⟩)

/-- `ConflictResolver.merge` (spec §4.4): create against an absent
entity applies; deletions always win (a deletion of a deleted entity is
a no-op `Applied`); matching versions are the fast path; on diverged
versions, disjoint field sets are merged automatically with the version
bumped past both, while overlapping field sets yield `Conflicted` with
both candidate values retained. -/
def merge (lm : LocalMutation) (server : Option ServerEvent) : MergeResult :=
  match server with
  | none =>
    match lm.opKind with
    | .create => .applied (lm.baseVersion + 1) lm.changes
    | .delete => .applied lm.baseVersion []
    | .update => .rejected "target entity missing"
  | some s =>
    match lm.opKind with
    | .delete => .applied (s.version + 1) []
    | .create => .rejected "target entity already exists"
    | .update =>
      if lm.baseVersion = s.version then
        .applied (s.version + 1) (applyChanges s.fields lm.changes)
      else if lm.changes.all (fun c => !(serverChangedSince s lm.baseVersion).contains c.1) then
        .applied (s.version + 1) (applyChanges s.fields lm.changes)
      else
        .conflicted (conflictDetails lm s)

/-! ## Sync queue replay with idempotency keys (SyncQueue, spec §4.5)

Modelled from the spec: the server remembers every applied idempotency
key; a mutation whose key is already recorded is acknowledged as
`Applied` without re-execution. -/

/-- Server-side state: the applied idempotency keys and the events. -/
structure ServerState where
  appliedKeys : List String
  events : List (Nat × ServerEvent)
  deriving DecidableEq

/-- Look an event up by entity id. -/
def getEvent (evs : List (Nat × ServerEvent)) (id : Nat) : Option ServerEvent :=
  (evs.find? (fun p => p.1 == id)).map (fun p => p.2)

/-- Store an event, replacing any previous binding. -/
def setEvent (evs : List (Nat × ServerEvent)) (id : Nat) (e : ServerEvent) :
    List (Nat × ServerEvent) :=
  (id, e) :: evs.filter (fun p => p.1 != id)

/-- Record the changed fields' new last-change version. -/
def bumpFieldVersions (fvs : Fields) (changes : List (String × Nat)) (v : Nat) : Fields :=
  applyChanges fvs (changes.map (fun c => (c.1, v)))

/-- Commit an `applied` merge outcome to the event store. -/
def updateEvents (evs : List (Nat × ServerEvent)) (m : LocalMutation) (v : Nat) (fs : Fields) :
    List (Nat × ServerEvent) :=
  match m.opKind with
  | .delete => evs.filter (fun p => p.1 != m.targetId)
  | _ =>
    setEvent evs m.targetId
      { version := v, fields := fs,
        fieldVersions :=
          bumpFieldVersions (((getEvent evs m.targetId).map (fun e => e.fieldVersions)).getD [])
            m.changes v,
        conflicted := false }

/-- Flag an event `Conflicted` pending manual resolution. -/
def markConflicted (evs : List (Nat × ServerEvent)) (id : Nat) : List (Nat × ServerEvent) :=
  match getEvent evs id with
  | none => evs
  | some e => setEvent evs id { e with conflicted := true }

/-- The acknowledgement sent back to the queue. -/
inductive SyncAck
  | applied
  | conflicted
  | rejected
  deriving DecidableEq

/-- One replay step of the sync queue (spec §4.5): a mutation whose
idempotency key the server reports as already applied is treated as
`Applied` without re-execution; otherwise the mutation goes through
`ConflictResolver.merge` and the outcome is committed (rejected
mutations leave the state untouched). -/
def applyWithIdempotency (st : ServerState) (m : LocalMutation) : SyncAck × ServerState :=
  if st.appliedKeys.contains m.idempotencyKey then (.applied, st)
  else
    match merge m (getEvent st.events m.targetId) with
    | .applied v fs =>
      (.applied, ⟨m.idempotencyKey :: st.appliedKeys, updateEvents st.events m v fs⟩)
    | .conflicted _ =>
      (.conflicted, ⟨m.idempotencyKey :: st.appliedKeys, markConflicted st.events m.targetId⟩)
    | .rejected _ => (.rejected, st)

/-! ## Schedule editing (ScheduleManager, spec §4.3)

Modelled from the spec: the repository contains no implementation of
`ScheduleManager`; the design documents only declare the CalendarAPI
surface.  Overlap is checked on half-open `[startAt, endAt)` intervals
of `Scheduled` events of the same plan, with the edited interval
expanded by the travel-duration buffer when both events reference
destinations; `applyEdit` reports all conflicting event ids and leaves
the stored interval unchanged unless the caller forces the override
(which flags the displaced events `Conflicted`). -/

/-- A half-open time interval `[startAt, endAt)`. -/
structure Interval where
  startAt : Int
  endAt : Int
  deriving DecidableEq

/-- Interval overlap for half-open intervals. -/
def overlapsIv (a b : Interval) : Bool :=
  decide (a.startAt < b.endAt) && decide (b.startAt < a.endAt)

/-- ScheduleEvent lifecycle states (spec §4.3). -/
inductive EvState
  | proposed
  | scheduled
  | conflicted
  | cancelled
  deriving DecidableEq

/-- A ScheduleEvent (spec §3). -/
structure SEvent where
  id : Nat
  planId : Nat
  destId : Option Nat
  interval : Interval
  version : Nat
  state : EvState
  deriving DecidableEq

/-- Travel-time buffer between two events: the RouteEdge travel
duration when both events reference destinations, zero otherwise. -/
def buffer (travelDur : Nat → Nat → Nat) (ev e2 : SEvent) : Int :=
  match ev.destId, e2.destId with
  | some a, some b => travelDur a b
  | _, _ => 0

/-- The overlap condition `applyEdit` checks `e2` against: a different,
`Scheduled` event of the same plan whose interval meets the edited
event's new interval expanded by the travel buffer. -/
def conflictCond (travelDur : Nat → Nat → Nat) (ev : SEvent) (newIv : Interval)
    (e2 : SEvent) : Bool :=
  e2.id != ev.id && e2.planId == ev.planId && e2.state == EvState.scheduled &&
    overlapsIv ⟨newIv.startAt - buffer travelDur ev e2, newIv.endAt + buffer travelDur ev e2⟩
      e2.interval

inductive EditResult
  | updated (ev : SEvent)
  | overlap (conflicting : List Nat)
  | notFound
  deriving DecidableEq

/-- `ScheduleManager.applyEdit` (spec §4.3). -/
def applyEdit (travelDur : Nat → Nat → Nat) (events : List SEvent) (eventId : Nat)
    (newIv : Interval) (force : Bool) : EditResult × List SEvent :=
  match events.find? (fun e => e.id == eventId) with
  | none => (.notFound, events)
  | some ev =>
    if (events.filter (conflictCond travelDur ev newIv)).isEmpty then
      (.updated { ev with interval := newIv, version := ev.version + 1, state := .scheduled },
       events.map (fun e =>
         if e.id == eventId then
           { ev with interval := newIv, version := ev.version + 1, state := .scheduled }
         else e))
    else if force then
      (.overlap ((events.filter (conflictCond travelDur ev newIv)).map (fun e => e.id)),
       events.map (fun e =>
         if e.id == eventId then
           { ev with interval := newIv, version := ev.version + 1, state := .scheduled }
         else if conflictCond travelDur ev newIv e then { e with state := .conflicted }
         else e))
    else
      (.overlap ((events.filter (conflictCond travelDur ev newIv)).map (fun e => e.id)),
       events)

/-! ## Distance cache and route computation (DistanceCache, spec §4.1, §6)

Modelled from the spec: the repository contains no implementation of
`DistanceCache`; the design documents only include `handleMapsError`
(which classifies provider errors) and the `MapAPI` declaration.  The
upstream directions provider — already wrapped with its retry — is a
function returning `none` on error or timeout; per spec §7 the
resulting `ExternalServiceError` is absorbed (logged, represented by
the `failed` flag) and the fallback edge is returned.  The great-circle
(haversine) distance is an explicit function parameter `gc`, its
trigonometric formula being outside this integer embedding. -/

structure Coord where
  lat : Int
  lon : Int
  deriving DecidableEq

inductive TravelMode
  | driving
  | walking
  | transit
  deriving DecidableEq

/-- A cached route edge: distance, duration, confidence tag. -/
structure Edge where
  distance : Nat
  duration : Nat
  approximate : Bool
  deriving DecidableEq

/-- `getEdge`'s outcome: the edge plus whether the upstream provider
failed (the absorbed `ExternalServiceError`). -/
structure EdgeResult where
  edge : Edge
  failed : Bool
  deriving DecidableEq

/-- Cache configuration: the configured average speed used to derive a
fallback duration from the great-circle distance. -/
structure CacheConfig where
  avgSpeed : Nat
  deriving DecidableEq

/-- `DistanceCache.getEdge` (spec §4.1): the provider's edge on
success; on failure the great-circle fallback distance, a duration
derived from the configured average speed, and `approximate := true`. -/
def getEdge (upstream : Coord → Coord → TravelMode → Option Edge)
    (gc : Coord → Coord → Nat) (cfg : CacheConfig)
    (o d : Coord) (mode : TravelMode) : EdgeResult :=
  match upstream o d mode with
  | some e => ⟨e, false⟩
  | none => ⟨⟨gc o d, gc o d / cfg.avgSpeed, true⟩, true⟩

def coordOf (dst : Destination) : Coord := ⟨dst.lat, dst.lon⟩

/-- `computeRoute` (spec §6): the optimizer over edge costs supplied by
`DistanceCache.getEdge`. -/
def computeRoute (upstream : Coord → Coord → TravelMode → Option Edge)
    (gc : Coord → Coord → Nat) (cfg : CacheConfig) (optCfg : OptConfig)
    (ds : List Destination) : Except OptError OptResult :=
  optimize
    (fun a b =>
      (getEdge upstream gc cfg (coordOf a) (coordOf b) TravelMode.driving).edge.distance)
    (fun a b =>
      (getEdge upstream gc cfg (coordOf a) (coordOf b) TravelMode.driving).edge.duration)
    optCfg ds

/-! ## Concrete instances for the remaining witnesses -/

/-- A server event at version 5 whose field `start` changed at
version 5 (after the mutations' base version 3). -/
def wServerEvent : ServerEvent :=
  ⟨5, [("start", 10), ("stop", 20)], [("start", 5)], false⟩

/-- A local update whose changed field (`stop`) is disjoint from the
server's changes since base version 3. -/
def wDisjointMut : LocalMutation := ⟨0, "k1", .update, 1, [("stop", 30)], 3⟩

/-- A local update that changed the same field (`start`) as the
server. -/
def wOverlapMut : LocalMutation := ⟨1, "k2", .update, 1, [("start", 99)], 3⟩

/-- Two scheduled events of the same plan for the applyEdit witness. -/
def wEvents : List SEvent :=
  [⟨1, 7, none, ⟨0, 10⟩, 0, .scheduled⟩, ⟨2, 7, none, ⟨5, 15⟩, 0, .scheduled⟩]

/-- No travel buffer: events reference no destinations. -/
def wTravelDur : Nat → Nat → Nat := fun _ _ => 0

/-- A provider that always errors/times out. -/
def wUpstream : Coord → Coord → TravelMode → Option Edge := fun _ _ _ => none

/-- A concrete great-circle stand-in on the embedded coordinates. -/
def wGc : Coord → Coord → Nat :=
  fun a b => (a.lat - b.lat).natAbs + (a.lon - b.lon).natAbs

end TabiScript

namespace TabiScript

open scoped List

/-! ## Helper lemmas about the optimizer -/

theorem foldl_nnPick_mem (dist : Destination → Destination → Nat) (cur : Destination) :
    ∀ (cs : List Destination) (acc : Destination),
      cs.foldl (nnPick dist cur) acc = acc ∨ cs.foldl (nnPick dist cur) acc ∈ cs
  | [], _ => Or.inl rfl
  | x :: xs, acc => by
    rcases foldl_nnPick_mem dist cur xs (nnPick dist cur acc x) with h | h
    · simp only [List.foldl_cons]
      rw [h]
      unfold nnPick
      split
      · exact Or.inr (List.mem_cons_self _ _)
      · exact Or.inl rfl
    · exact Or.inr (List.mem_cons_of_mem _ h)

theorem selectMin_mem {dist : Destination → Destination → Nat} {cur m : Destination}
    {l : List Destination} (h : selectMin dist cur l = some m) : m ∈ l := by
  cases l with
  | nil => simp [selectMin] at h
  | cons c cs =>
    simp only [selectMin, Option.some.injEq] at h
    rw [← h]
    rcases foldl_nnPick_mem dist cur cs c with h' | h'
    · rw [h']; exact List.mem_cons_self _ _
    · exact List.mem_cons_of_mem _ h'

theorem lexLE_trans {dist : Destination → Destination → Nat} {cur a b c : Destination}
    (h1 : lexLE dist cur a b) (h2 : lexLE dist cur b c) : lexLE dist cur a c := by
  unfold lexLE at *
  omega

theorem nnPick_lexLE_left (dist : Destination → Destination → Nat) (cur acc x : Destination) :
    lexLE dist cur (nnPick dist cur acc x) acc := by
  unfold nnPick lexLE
  split <;> omega

theorem nnPick_lexLE_right (dist : Destination → Destination → Nat) (cur acc x : Destination) :
    lexLE dist cur (nnPick dist cur acc x) x := by
  unfold nnPick lexLE
  split <;> omega

theorem foldl_nnPick_lex (dist : Destination → Destination → Nat) (cur : Destination) :
    ∀ (cs : List Destination) (acc : Destination),
      lexLE dist cur (cs.foldl (nnPick dist cur) acc) acc ∧
      ∀ x ∈ cs, lexLE dist cur (cs.foldl (nnPick dist cur) acc) x
  | [], acc => ⟨Or.inr ⟨rfl, Nat.le_refl _⟩, by simp⟩
  | x :: xs, acc => by
    have ih := foldl_nnPick_lex dist cur xs (nnPick dist cur acc x)
    simp only [List.foldl_cons]
    refine ⟨lexLE_trans ih.1 (nnPick_lexLE_left dist cur acc x), ?_⟩
    intro y hy
    rcases List.mem_cons.mp hy with rfl | hy
    · exact lexLE_trans ih.1 (nnPick_lexLE_right dist cur acc y)
    · exact ih.2 y hy

theorem selectMin_lex {dist : Destination → Destination → Nat} {cur m : Destination}
    {l : List Destination} (h : selectMin dist cur l = some m) :
    ∀ x ∈ l, lexLE dist cur m x := by
  cases l with
  | nil => simp [selectMin] at h
  | cons c cs =>
    simp only [selectMin, Option.some.injEq] at h
    intro x hx
    rcases List.mem_cons.mp hx with rfl | hx
    · rw [← h]; exact (foldl_nnPick_lex dist cur cs x).1
    · rw [← h]; exact (foldl_nnPick_lex dist cur cs c).2 x hx

theorem nnBuild_perm (dist : Destination → Destination → Nat) :
    ∀ (fuel : Nat) (cur : Destination) (rest : List Destination),
      rest.length = fuel → nnBuild dist fuel cur rest ~ rest
  | 0, _, rest, h => by
    have hnil : rest = [] := List.eq_nil_of_length_eq_zero h
    simp [hnil, nnBuild]
  | fuel + 1, cur, rest, h => by
    cases rest with
    | nil => simp at h
    | cons x xs =>
      have hsel : selectMin dist cur (x :: xs) = some (xs.foldl (nnPick dist cur) x) := rfl
      have hmem : xs.foldl (nnPick dist cur) x ∈ x :: xs := selectMin_mem hsel
      have hlen : ((x :: xs).erase (xs.foldl (nnPick dist cur) x)).length = fuel := by
        rw [List.length_erase_of_mem hmem]
        simp only [List.length_cons] at h ⊢
        omega
      have ih := nnBuild_perm dist fuel (xs.foldl (nnPick dist cur) x)
        ((x :: xs).erase (xs.foldl (nnPick dist cur) x)) hlen
      unfold nnBuild
      rw [hsel]
      exact (ih.cons _).trans (List.perm_cons_erase hmem).symm

theorem nnConstruct_perm (dist : Destination → Destination → Nat) :
    ∀ ds : List Destination, nnConstruct dist ds ~ ds
  | [] => List.Perm.refl _
  | s :: rest => (nnBuild_perm dist rest.length s rest rfl).cons s

theorem reverseSeg_perm (l : List Destination) (i j : Nat) (h : i ≤ j) :
    reverseSeg l i j ~ l := by
  have hd : (l.drop i).drop (j + 1 - i) = l.drop (j + 1) := by
    rw [List.drop_drop]
    congr 1
    omega
  have hl : l = l.take i ++ ((l.drop i).take (j + 1 - i) ++ l.drop (j + 1)) := by
    rw [← hd, List.take_append_drop, List.take_append_drop]
  rw [reverseSeg, List.append_assoc]
  conv_rhs => rw [hl]
  exact List.Perm.append_left _
    (List.Perm.append_right _ (List.reverse_perm ((l.drop i).take (j + 1 - i))))

theorem findImproving_spec (dist : Destination → Destination → Nat) (l : List Destination) :
    ∀ (ps : List (Nat × Nat)) (l' : List Destination),
      (∀ p ∈ ps, p.1 ≤ p.2) → findImproving dist l ps = some l' →
      l' ~ l ∧ totalDist dist l' < totalDist dist l
  | [], _, _, h => by simp [findImproving] at h
  | p :: ps, l', hps, h => by
    rw [findImproving] at h
    split at h
    · rename_i hlt
      cases h
      exact ⟨reverseSeg_perm l p.1 p.2 (hps p (List.mem_cons_self _ _)), hlt⟩
    · exact findImproving_spec dist l ps l'
        (fun q hq => hps q (List.mem_cons_of_mem _ hq)) h

theorem allPairs_le (n : Nat) : ∀ p ∈ allPairs n, p.1 ≤ p.2 := by
  intro p hp
  simp only [allPairs, List.mem_flatMap, List.mem_filterMap, List.mem_range] at hp
  obtain ⟨i, _, j, _, hij⟩ := hp
  split at hij
  · rename_i hlt
    cases hij
    omega
  · simp at hij

theorem twoOptStep_spec (dist : Destination → Destination → Nat) (l l' : List Destination)
    (h : twoOptStep dist l = some l') :
    l' ~ l ∧ totalDist dist l' < totalDist dist l :=
  findImproving_spec dist l (allPairs l.length) l' (allPairs_le _) h

theorem twoOptIter_perm (dist : Destination → Destination → Nat) :
    ∀ (k : Nat) (l : List Destination), twoOptIter dist k l ~ l
  | 0, l => List.Perm.refl l
  | k + 1, l => by
    cases hstep : twoOptStep dist l with
    | none => rw [twoOptIter, hstep]
    | some l' =>
      rw [twoOptIter, hstep]
      exact (twoOptIter_perm dist k l').trans (twoOptStep_spec dist l l' hstep).1

theorem twoOptIter_le (dist : Destination → Destination → Nat) :
    ∀ (k : Nat) (l : List Destination),
      totalDist dist (twoOptIter dist k l) ≤ totalDist dist l
  | 0, l => Nat.le_refl _
  | k + 1, l => by
    cases hstep : twoOptStep dist l with
    | none => rw [twoOptIter, hstep]
    | some l' =>
      rw [twoOptIter, hstep]
      exact Nat.le_trans (twoOptIter_le dist k l')
        (Nat.le_of_lt (twoOptStep_spec dist l l' hstep).2)

theorem splitSegs_eq : ∀ ds : List Destination,
    (splitSegs ds).1 ++ (splitSegs ds).2.flatMap (fun g => g.1 :: g.2) = ds
  | [] => rfl
  | d :: rest => by
    have ih := splitSegs_eq rest
    by_cases h : isAnchor d = true
    · simp only [splitSegs, if_pos h, List.flatMap_cons, List.nil_append, List.cons_append]
      rw [ih]
    · rw [Bool.not_eq_true] at h
      simp only [splitSegs, h, Bool.false_eq_true, if_false, List.cons_append]
      rw [ih]

theorem splitSegs_anchors : ∀ ds : List Destination,
    (∀ d ∈ (splitSegs ds).1, isAnchor d = false) ∧
    (∀ g ∈ (splitSegs ds).2, isAnchor g.1 = true ∧ ∀ d ∈ g.2, isAnchor d = false)
  | [] => ⟨by simp [splitSegs], by simp [splitSegs]⟩
  | d :: rest => by
    have ih := splitSegs_anchors rest
    by_cases h : isAnchor d = true
    · simp only [splitSegs, if_pos h]
      refine ⟨by simp, ?_⟩
      intro g hg
      rcases List.mem_cons.mp hg with rfl | hg
      · exact ⟨h, ih.1⟩
      · exact ih.2 g hg
    · rw [Bool.not_eq_true] at h
      simp only [splitSegs, h, Bool.false_eq_true, if_false]
      refine ⟨?_, ih.2⟩
      intro d' hd'
      rcases List.mem_cons.mp hd' with rfl | hd'
      · exact h
      · exact ih.1 d' hd'

theorem splitSegs_no_anchor : ∀ ds : List Destination,
    (∀ d ∈ ds, isAnchor d = false) → splitSegs ds = (ds, [])
  | [], _ => rfl
  | d :: rest, h => by
    have hd : isAnchor d = false := h d (List.mem_cons_self _ _)
    have ih := splitSegs_no_anchor rest (fun d' hd' => h d' (List.mem_cons_of_mem _ hd'))
    simp only [splitSegs, hd, Bool.false_eq_true, if_false, ih]

theorem flatMap_perm_congr {α β : Type} (l : List α) (f g : α → List β)
    (h : ∀ x ∈ l, f x ~ g x) : l.flatMap f ~ l.flatMap g := by
  induction l with
  | nil => exact List.Perm.refl _
  | cons a as ih =>
    simp only [List.flatMap_cons]
    exact (h a (List.mem_cons_self _ _)).append
      (ih (fun x hx => h x (List.mem_cons_of_mem _ hx)))

theorem solveSeg_perm (dist : Destination → Destination → Nat) (iterCap : Nat) :
    ∀ (o : Option Destination) (seg : List Destination), solveSeg dist iterCap o seg ~ seg
  | none, seg => (twoOptIter_perm dist iterCap _).trans (nnConstruct_perm dist seg)
  | some a, seg => (twoOptIter_perm dist iterCap _).trans (nnBuild_perm dist seg.length a seg rfl)

theorem optimizeCore_perm (dist : Destination → Destination → Nat) (iterCap : Nat)
    (ds : List Destination) : optimizeCore dist iterCap ds ~ ds := by
  have h2 : (splitSegs ds).2.flatMap (fun g => g.1 :: solveSeg dist iterCap (some g.1) g.2)
      ~ (splitSegs ds).2.flatMap (fun g => g.1 :: g.2) :=
    flatMap_perm_congr _ _ _ (fun g _ => (solveSeg_perm dist iterCap (some g.1) g.2).cons g.1)
  calc optimizeCore dist iterCap ds
      ~ (splitSegs ds).1 ++ (splitSegs ds).2.flatMap (fun g => g.1 :: g.2) :=
        (solveSeg_perm dist iterCap none _).append h2
    _ = ds := splitSegs_eq ds

theorem filter_anchor_of_no_anchor (l : List Destination)
    (h : ∀ d ∈ l, isAnchor d = false) : l.filter isAnchor = [] :=
  List.filter_eq_nil_iff.mpr (fun d hd => by simp [h d hd])

theorem filter_anchor_groups (groups : List (Destination × List Destination))
    (f : Destination × List Destination → List Destination)
    (h : ∀ g ∈ groups, isAnchor g.1 = true ∧ ∀ d ∈ f g, isAnchor d = false) :
    (groups.flatMap (fun g => g.1 :: f g)).filter isAnchor = groups.map (fun g => g.1) := by
  induction groups with
  | nil => rfl
  | cons g gs ih =>
    obtain ⟨hg, hf⟩ := h g (List.mem_cons_self _ _)
    simp only [List.flatMap_cons, List.map_cons, List.filter_append, List.filter_cons, hg,
      if_true]
    rw [filter_anchor_of_no_anchor (f g) hf, ih (fun g' hg' => h g' (List.mem_cons_of_mem _ hg'))]
    simp

theorem optimizeCore_filter_anchor (dist : Destination → Destination → Nat) (iterCap : Nat)
    (ds : List Destination) :
    (optimizeCore dist iterCap ds).filter isAnchor = ds.filter isAnchor := by
  have hsplit := splitSegs_anchors ds
  have hlead : (solveSeg dist iterCap none (splitSegs ds).1).filter isAnchor = [] :=
    filter_anchor_of_no_anchor _
      (fun d hd => hsplit.1 d ((solveSeg_perm dist iterCap none _).mem_iff.mp hd))
  have hgroups :
      ((splitSegs ds).2.flatMap (fun g => g.1 :: solveSeg dist iterCap (some g.1) g.2)).filter
          isAnchor = (splitSegs ds).2.map (fun g => g.1) :=
    filter_anchor_groups _ _
      (fun g hg => ⟨(hsplit.2 g hg).1,
        fun d hd => (hsplit.2 g hg).2 d ((solveSeg_perm dist iterCap (some g.1) g.2).mem_iff.mp hd)⟩)
  have hds : ds.filter isAnchor = (splitSegs ds).2.map (fun g => g.1) := by
    conv_lhs => rw [← splitSegs_eq ds]
    rw [List.filter_append, filter_anchor_of_no_anchor _ hsplit.1,
      filter_anchor_groups _ _ (fun g hg => ⟨(hsplit.2 g hg).1, (hsplit.2 g hg).2⟩)]
    simp
  rw [optimizeCore, List.filter_append, hlead, hgroups, hds]
  simp

/-- **C1.** For every input whose anchors (fixed-date destinations) are
given in chronological order, `optimize` returns a sequence in which
the anchors appear in exactly the same relative order as given — so no
fixed-date destination is reordered past another fixed-date destination
with an earlier date — regardless of where the non-anchored
destinations are inserted, and the output's anchors remain in
chronological order. -/
theorem optimize_anchor_order (dist dur : Destination → Destination → Nat) (cfg : OptConfig)
    (ds : List Destination) (r : OptResult)
    (hok : optimize dist dur cfg ds = .ok r)
    (hchrono : chronoSorted (ds.filter isAnchor) = true) :
    r.sequence.filter isAnchor = ds.filter isAnchor ∧
    chronoSorted (r.sequence.filter isAnchor) = true := by
  unfold optimize at hok
  split_ifs at hok
  · injection hok with h
    rw [← h]
    exact ⟨rfl, hchrono⟩
  · injection hok with h
    rw [← h]
    refine ⟨optimizeCore_filter_anchor dist cfg.iterCap ds, ?_⟩
    rw [optimizeCore_filter_anchor dist cfg.iterCap ds]
    exact hchrono

/-- Witness for **C1**: a concrete six-destination input with anchors
dated 1 and 3; the optimizer's output keeps both anchors in their
original chronological order. -/
theorem optimize_anchor_order_witness :
    wAnchorRes.sequence.filter isAnchor = wAnchorDs.filter isAnchor ∧
    chronoSorted (wAnchorRes.sequence.filter isAnchor) = true :=
  optimize_anchor_order cexManhattan cexManhattan cexCfg wAnchorDs wAnchorRes
    (by decide) (by decide)

/-- **C2 (counterexample).** The claim "for every destination set with
no anchors, the optimizer's total distance is ≤ the distance of the
unoptimized input order" is false: on the six anchor-free destinations
`cexDs` (a symmetric Manhattan metric), the nearest-neighbor + 2-opt
optimizer converges to a local optimum of total distance 24 while the
unoptimized input order has total distance 23. -/
theorem optimize_total_distance_counterexample :
    optimize cexManhattan cexManhattan cexCfg cexDs = Except.ok cexResult ∧
    totalDist cexManhattan cexDs < cexResult.totalDistance := by
  constructor
  · rfl
  · decide

/-- **C2 (amended).** For every destination set with no anchors, the
total travel distance of the sequence returned by `optimize` is ≤ the
total travel distance of its nearest-neighbor constructed order: the
2-opt improvement passes never increase the total distance.  (The
originally claimed bound against the unoptimized input order fails —
see the counterexample — because neither nearest-neighbor construction
nor 2-opt local search ever compares against the input order.) -/
theorem optimize_le_construction (dist dur : Destination → Destination → Nat) (cfg : OptConfig)
    (ds : List Destination) (r : OptResult)
    (hanch : ∀ d ∈ ds, isAnchor d = false)
    (hok : optimize dist dur cfg ds = .ok r) :
    r.totalDistance ≤ totalDist dist (nnConstruct dist ds) := by
  unfold optimize at hok
  split_ifs at hok with h1
  · injection hok with h
    rw [← h]
    cases ds with
    | nil => exact Nat.le_refl _
    | cons a tl =>
      cases tl with
      | nil => exact Nat.le_refl _
      | cons b tl2 =>
        simp only [List.length_cons] at h1
        omega
  · injection hok with h
    rw [← h]
    show totalDist dist (optimizeCore dist cfg.iterCap ds) ≤ _
    rw [optimizeCore, splitSegs_no_anchor ds hanch]
    simp only [List.flatMap_nil, List.append_nil]
    exact twoOptIter_le dist cfg.iterCap (nnConstruct dist ds)

/-- Witness for the amended **C2** at the concrete anchor-free input
`cexDs`: the returned total distance 24 is ≤ the nearest-neighbor
construction's total distance (26). -/
theorem optimize_le_construction_witness :
    cexResult.totalDistance ≤ totalDist cexManhattan (nnConstruct cexManhattan cexDs) :=
  optimize_le_construction cexManhattan cexManhattan cexCfg cexDs cexResult
    (by decide) (by decide)

/-- **C6.** `optimize` is a pure, deterministic function — running it
twice on the same unchanged destination set yields the identical
result — and construction-phase ties are broken by ascending
destination identifier: the selected candidate is lexicographically
minimal by (edge cost, destination id). -/
theorem optimize_deterministic_tiebreak (dist dur : Destination → Destination → Nat)
    (cfg : OptConfig) (ds : List Destination) (cur m : Destination) (cand : List Destination)
    (hsel : selectMin dist cur cand = some m) :
    optimize dist dur cfg ds = optimize dist dur cfg ds ∧
    m ∈ cand ∧
    ∀ x ∈ cand, dist cur m < dist cur x ∨ (dist cur m = dist cur x ∧ m.id ≤ x.id) :=
  ⟨rfl, selectMin_mem hsel, fun x hx => selectMin_lex hsel x hx⟩

/-- Witness for **C6**: from two candidates at equal distance 5 from
the current position, the selection picks the one with the smaller
destination id (1 rather than 3). -/
theorem optimize_deterministic_tiebreak_witness :
    optimize cexManhattan cexManhattan cexCfg cexDs =
      optimize cexManhattan cexManhattan cexCfg cexDs ∧
    (⟨1, 0, 5, none⟩ : Destination) ∈
      ([⟨3, 5, 0, none⟩, ⟨1, 0, 5, none⟩] : List Destination) ∧
    ∀ x ∈ ([⟨3, 5, 0, none⟩, ⟨1, 0, 5, none⟩] : List Destination),
      cexManhattan ⟨0, 0, 0, none⟩ ⟨1, 0, 5, none⟩ < cexManhattan ⟨0, 0, 0, none⟩ x ∨
      (cexManhattan ⟨0, 0, 0, none⟩ ⟨1, 0, 5, none⟩ = cexManhattan ⟨0, 0, 0, none⟩ x ∧
        (⟨1, 0, 5, none⟩ : Destination).id ≤ x.id) :=
  optimize_deterministic_tiebreak cexManhattan cexManhattan cexCfg cexDs
    ⟨0, 0, 0, none⟩ ⟨1, 0, 5, none⟩ [⟨3, 5, 0, none⟩, ⟨1, 0, 5, none⟩] (by decide)

/-- **C8.** For every input with fewer than two destinations,
`optimize` returns the trivial (empty or single-element) sequence
unchanged, without invoking the optimization algorithm; for every input
of at least two destinations whose count exceeds the configured cap, it
fails with `CapacityError` instead of attempting the computation. -/
theorem optimize_trivial_and_capacity (dist dur : Destination → Destination → Nat)
    (cfg : OptConfig) (ds : List Destination) :
    (ds.length < 2 →
      optimize dist dur cfg ds = .ok ⟨ds, totalDist dist ds, totalDist dur ds⟩) ∧
    (2 ≤ ds.length → cfg.cap < ds.length →
      optimize dist dur cfg ds = .error .capacityError) := by
  constructor
  · intro h
    unfold optimize
    rw [if_pos h]
  · intro h2 hcap
    unfold optimize
    rw [if_neg (by omega), if_pos hcap]

/-- Witness for **C8**: a single destination is returned unchanged with
zero totals, and six destinations against a cap of 5 yield
`CapacityError`. -/
theorem optimize_trivial_and_capacity_witness :
    optimize cexManhattan cexManhattan cexCfg [⟨0, 0, 0, none⟩] =
      .ok ⟨[⟨0, 0, 0, none⟩], totalDist cexManhattan [⟨0, 0, 0, none⟩],
        totalDist cexManhattan [⟨0, 0, 0, none⟩]⟩ ∧
    optimize cexManhattan cexManhattan ⟨5, 200⟩ cexDs = .error .capacityError :=
  ⟨(optimize_trivial_and_capacity cexManhattan cexManhattan cexCfg [⟨0, 0, 0, none⟩]).1
      (by decide),
   (optimize_trivial_and_capacity cexManhattan cexManhattan ⟨5, 200⟩ cexDs).2
      (by decide) (by decide)⟩

/-! ## Helper lemmas about field maps -/

theorem getField_setField_self (fs : Fields) (k : String) (v : Nat) :
    getField (setField fs k v) k = some v := by
  simp [getField, setField, List.find?_cons_of_pos]

theorem find?_filter_ne (fs : Fields) (k k' : String) (h : k' ≠ k) :
    (fs.filter (fun p => p.1 != k)).find? (fun p => p.1 == k') =
      fs.find? (fun p => p.1 == k') := by
  induction fs with
  | nil => rfl
  | cons p ps ih =>
    by_cases hpk : p.1 = k
    · have h1 : (p.1 != k) = false := by simp [hpk]
      have h2 : (p.1 == k') = false := by
        simp only [beq_eq_false_iff_ne, ne_eq, hpk]
        exact fun hh => h hh.symm
      rw [List.filter_cons, h1]
      simp only [Bool.false_eq_true, if_false]
      rw [ih, List.find?_cons_of_neg _ (by simp [h2])]
    · have h1 : (p.1 != k) = true := by simp [hpk]
      by_cases hpk' : p.1 = k'
      · rw [List.filter_cons, h1]
        simp only [if_true]
        rw [List.find?_cons_of_pos _ (by simp [hpk']),
          List.find?_cons_of_pos _ (by simp [hpk'])]
      · rw [List.filter_cons, h1]
        simp only [if_true]
        rw [List.find?_cons_of_neg _ (by simp [hpk']),
          List.find?_cons_of_neg _ (by simp [hpk']), ih]

theorem getField_setField_other (fs : Fields) (k k' : String) (v : Nat) (h : k' ≠ k) :
    getField (setField fs k v) k' = getField fs k' := by
  simp only [getField, setField]
  rw [List.find?_cons_of_neg _ (by simp only [beq_iff_eq]; exact fun hh => h hh.symm),
    find?_filter_ne fs k k' h]

theorem getField_applyChanges_not_mem :
    ∀ (cs : List (String × Nat)) (fs : Fields) (k : String), (∀ c ∈ cs, c.1 ≠ k) →
      getField (applyChanges fs cs) k = getField fs k
  | [], _, _, _ => rfl
  | c :: cs', fs, k, h => by
    rw [applyChanges,
      getField_applyChanges_not_mem cs' _ k (fun c' hc' => h c' (List.mem_cons_of_mem _ hc'))]
    exact getField_setField_other fs c.1 k c.2
      (fun he => (h c (List.mem_cons_self _ _)) he.symm)

theorem getField_applyChanges_mem :
    ∀ (cs : List (String × Nat)) (fs : Fields) (c : String × Nat),
      c ∈ cs → (cs.map Prod.fst).Nodup →
      getField (applyChanges fs cs) c.1 = some c.2
  | [], _, _, hc, _ => absurd hc (List.not_mem_nil _)
  | c' :: cs', fs, c, hc, hnd => by
    rw [List.map_cons, List.nodup_cons] at hnd
    rcases List.mem_cons.mp hc with rfl | hc2
    · rw [applyChanges, getField_applyChanges_not_mem cs' _ c.1 ?hni]
      · exact getField_setField_self fs c.1 c.2
      · intro d hd he
        exact hnd.1 (List.mem_map.mpr ⟨d, hd, he⟩)
    · rw [applyChanges]
      exact getField_applyChanges_mem cs' (setField fs c'.1 c'.2) c hc2 hnd.2

/-- **C3.** For every `merge(localMutation, serverEvent)` whose
versions diverge (the server advanced past the mutation's base
version): if the locally changed fields are disjoint from the fields
changed on the server since `baseVersion`, the result is `Applied` with
a merged field map containing both sides' changes — every locally
changed field carries the local value and every untouched field keeps
the server's value — and the version is bumped past both; if both sides
changed a common field, the result is `Conflicted` and retains both
candidate values for every contested field. -/
theorem merge_disjoint_and_overlap (lm : LocalMutation) (s : ServerEvent)
    (hop : lm.opKind = .update)
    (hlt : lm.baseVersion < s.version)
    (hnd : (lm.changes.map Prod.fst).Nodup) :
    ((∀ c ∈ lm.changes, c.1 ∉ serverChangedSince s lm.baseVersion) →
      merge lm (some s) = .applied (s.version + 1) (applyChanges s.fields lm.changes) ∧
      (∀ c ∈ lm.changes, getField (applyChanges s.fields lm.changes) c.1 = some c.2) ∧
      (∀ k : String, (∀ c ∈ lm.changes, c.1 ≠ k) →
        getField (applyChanges s.fields lm.changes) k = getField s.fields k) ∧
      lm.baseVersion < s.version + 1 ∧ s.version < s.version + 1) ∧
    ((∃ c ∈ lm.changes, c.1 ∈ serverChangedSince s lm.baseVersion) →
      merge lm (some s) = .conflicted (conflictDetails lm s) ∧
      ∀ c ∈ lm.changes, c.1 ∈ serverChangedSince s lm.baseVersion →
        (⟨c.1, c.2, getField s.fields c.1⟩ : ConflictDetail) ∈ conflictDetails lm s) := by
  constructor
  · intro hdisj
    have hall : lm.changes.all
        (fun c => !(serverChangedSince s lm.baseVersion).contains c.1) = true := by
      rw [List.all_eq_true]
      intro c hc
      simpa using hdisj c hc
    refine ⟨?_, ?_, ?_, by omega, by omega⟩
    · rw [merge, hop]
      rw [if_neg (by omega), if_pos hall]
    · intro c hc
      exact getField_applyChanges_mem lm.changes s.fields c hc hnd
    · intro k hk
      exact getField_applyChanges_not_mem lm.changes s.fields k hk
  · intro hov
    obtain ⟨c, hc, hcs⟩ := hov
    have hnall : lm.changes.all
        (fun c => !(serverChangedSince s lm.baseVersion).contains c.1) = false := by
      rw [Bool.eq_false_iff]
      intro hall
      rw [List.all_eq_true] at hall
      have := hall c hc
      simp at this
      exact this hcs
    constructor
    · rw [merge, hop]
      rw [if_neg (by omega), hnall]
      simp
    · intro c2 hc2 hcs2
      unfold conflictDetails
      refine List.mem_map.mpr ⟨c2, List.mem_filter.mpr ⟨hc2, ?_⟩, rfl⟩
      simpa using hcs2

/-- Witness for **C3** at concrete inputs: the disjoint update merges
to `Applied` with version bumped past both, and the same-field update
yields `Conflicted` retaining both values. -/
theorem merge_disjoint_and_overlap_witness :
    merge wDisjointMut (some wServerEvent) =
      .applied (wServerEvent.version + 1)
        (applyChanges wServerEvent.fields wDisjointMut.changes) ∧
    merge wOverlapMut (some wServerEvent) = .conflicted (conflictDetails wOverlapMut wServerEvent) :=
  ⟨((merge_disjoint_and_overlap wDisjointMut wServerEvent rfl (by decide) (by decide)).1
      (by decide)).1,
   ((merge_disjoint_and_overlap wOverlapMut wServerEvent rfl (by decide) (by decide)).2
      (by decide)).1⟩

/-- **C5.** Replaying a `PendingMutation` twice with the same
idempotency key produces the same final state as applying it once: the
second application finds the already-applied key, is acknowledged
`Applied` without re-execution, and leaves the state untouched (and in
general a second application with an already-recorded key returns the
state unchanged). -/
theorem sync_idempotent (st : ServerState) (m : LocalMutation) :
    (applyWithIdempotency (applyWithIdempotency st m).2 m).2 =
      (applyWithIdempotency st m).2 ∧
    (st.appliedKeys.contains m.idempotencyKey = true →
      applyWithIdempotency st m = (.applied, st)) := by
  constructor
  · by_cases hk : m.idempotencyKey ∈ st.appliedKeys
    · simp [applyWithIdempotency, hk]
    · cases hm : merge m (getEvent st.events m.targetId) with
      | applied v fs => simp [applyWithIdempotency, hk, hm]
      | conflicted d => simp [applyWithIdempotency, hk, hm]
      | rejected r => simp [applyWithIdempotency, hk, hm]
  · intro hk
    have hk2 : m.idempotencyKey ∈ st.appliedKeys := by simpa using hk
    simp [applyWithIdempotency, hk2]

/-- Witness for **C5**: replaying a concrete mutation against an empty
server twice leaves the state of the first application unchanged, and a
key already recorded on the server is acknowledged `Applied` without
touching the state. -/
theorem sync_idempotent_witness :
    (applyWithIdempotency
        (applyWithIdempotency ⟨[], []⟩ ⟨0, "key0", .create, 1, [("start", 4)], 0⟩).2
        ⟨0, "key0", .create, 1, [("start", 4)], 0⟩).2 =
      (applyWithIdempotency ⟨[], []⟩ ⟨0, "key0", .create, 1, [("start", 4)], 0⟩).2 ∧
    applyWithIdempotency ⟨["key0"], []⟩ ⟨0, "key0", .create, 1, [("start", 4)], 0⟩ =
      (.applied, ⟨["key0"], []⟩) :=
  ⟨(sync_idempotent ⟨[], []⟩ ⟨0, "key0", .create, 1, [("start", 4)], 0⟩).1,
   (sync_idempotent ⟨["key0"], []⟩ ⟨0, "key0", .create, 1, [("start", 4)], 0⟩).2 (by decide)⟩

/-- **C4.** For every `applyEdit(eventId, newInterval)` call on an
existing event: when some other `Scheduled` event of the same plan
overlaps the (buffer-expanded) new interval, the result reports the ids
of all such overlapping events and — unless the caller forces the
override — the stored events (including the edited event's prior
interval) are left unchanged; when no event overlaps, the edit is
accepted and no overlap is ever reported (no false positives). -/
theorem applyEdit_overlap_exact (travelDur : Nat → Nat → Nat) (events : List SEvent)
    (eventId : Nat) (newIv : Interval) (force : Bool) (ev : SEvent)
    (hfind : events.find? (fun e => e.id == eventId) = some ev) :
    ((∃ e2 ∈ events, conflictCond travelDur ev newIv e2 = true) →
      (applyEdit travelDur events eventId newIv force).1 =
        .overlap ((events.filter (conflictCond travelDur ev newIv)).map (fun e => e.id)) ∧
      (force = false → (applyEdit travelDur events eventId newIv force).2 = events)) ∧
    ((∀ e2 ∈ events, conflictCond travelDur ev newIv e2 = false) →
      (applyEdit travelDur events eventId newIv force).1 =
        .updated { ev with interval := newIv, version := ev.version + 1, state := .scheduled }) ∧
    (∀ e2 ∈ events, conflictCond travelDur ev newIv e2 = true →
      ∀ ids, (applyEdit travelDur events eventId newIv force).1 = .overlap ids →
        e2.id ∈ ids) := by
  have hkey : applyEdit travelDur events eventId newIv force =
      (if (events.filter (conflictCond travelDur ev newIv)).isEmpty then
        (.updated { ev with interval := newIv, version := ev.version + 1, state := .scheduled },
         events.map (fun e =>
           if e.id == eventId then
             { ev with interval := newIv, version := ev.version + 1, state := .scheduled }
           else e))
      else if force then
        (.overlap ((events.filter (conflictCond travelDur ev newIv)).map (fun e => e.id)),
         events.map (fun e =>
           if e.id == eventId then
             { ev with interval := newIv, version := ev.version + 1, state := .scheduled }
           else if conflictCond travelDur ev newIv e then { e with state := .conflicted }
           else e))
      else
        (.overlap ((events.filter (conflictCond travelDur ev newIv)).map (fun e => e.id)),
         events)) := by
    rw [applyEdit, hfind]
  by_cases hemp : (events.filter (conflictCond travelDur ev newIv)).isEmpty = true
  · have hnil : events.filter (conflictCond travelDur ev newIv) = [] :=
      List.isEmpty_iff.mp hemp
    have hnone : ∀ e2 ∈ events, conflictCond travelDur ev newIv e2 = false := by
      intro e2 he2
      by_contra hcond
      rw [Bool.not_eq_false] at hcond
      have hmem : e2 ∈ events.filter (conflictCond travelDur ev newIv) :=
        List.mem_filter.mpr ⟨he2, hcond⟩
      rw [hnil] at hmem
      exact List.not_mem_nil _ hmem
    refine ⟨?_, ?_, ?_⟩
    · intro hex
      obtain ⟨e2, he2, hcond⟩ := hex
      rw [hnone e2 he2] at hcond
      exact Bool.noConfusion hcond
    · intro _
      rw [hkey, if_pos hemp]
    · intro e2 he2 hcond
      rw [hnone e2 he2] at hcond
      exact Bool.noConfusion hcond
  · refine ⟨?_, ?_, ?_⟩
    · intro _
      refine ⟨?_, ?_⟩
      · rw [hkey, if_neg hemp]
        cases force
        · rw [if_neg (by simp)]
        · rw [if_pos rfl]
      · intro hf
        subst hf
        rw [hkey, if_neg hemp, if_neg (by simp)]
    · intro hnone
      have hnil : events.filter (conflictCond travelDur ev newIv) = [] :=
        List.filter_eq_nil_iff.mpr (fun e2 he2 => by simp [hnone e2 he2])
      rw [hnil] at hemp
      exact absurd rfl hemp
    · intro e2 he2 hcond ids hids
      rw [hkey, if_neg hemp] at hids
      have hmem : e2.id ∈ (events.filter (conflictCond travelDur ev newIv)).map
          (fun e => e.id) :=
        List.mem_map.mpr ⟨e2, List.mem_filter.mpr ⟨he2, hcond⟩, rfl⟩
      cases force
      · rw [if_neg (by simp)] at hids
        injection hids with h
        rw [← h]
        exact hmem
      · rw [if_pos rfl] at hids
        injection hids with h
        rw [← h]
        exact hmem

/-- Witness for **C4**: editing event 1 into `[8, 12)` overlaps the
scheduled event 2 (`[5, 15)`) — the overlap result reports exactly id 2
and the stored events are unchanged — while editing it into `[20, 25)`
overlaps nothing and is accepted. -/
theorem applyEdit_overlap_exact_witness :
    (applyEdit wTravelDur wEvents 1 ⟨8, 12⟩ false).1 = .overlap [2] ∧
    (applyEdit wTravelDur wEvents 1 ⟨8, 12⟩ false).2 = wEvents ∧
    (applyEdit wTravelDur wEvents 1 ⟨20, 25⟩ false).1 =
      .updated ⟨1, 7, none, ⟨20, 25⟩, 1, .scheduled⟩ := by
  have h1 := (applyEdit_overlap_exact wTravelDur wEvents 1 ⟨8, 12⟩ false
    ⟨1, 7, none, ⟨0, 10⟩, 0, .scheduled⟩ (by decide)).1 (by decide)
  have h2 := ((applyEdit_overlap_exact wTravelDur wEvents 1 ⟨20, 25⟩ false
    ⟨1, 7, none, ⟨0, 10⟩, 0, .scheduled⟩ (by decide)).2).1 (by decide)
  exact ⟨h1.1.trans (by decide), h1.2 rfl, h2⟩

/-- **C7.** Whenever the upstream directions provider errors or times
out after retry (returns `none`), `DistanceCache.getEdge` fails with
the absorbed `ExternalServiceError` (`failed := true`) and returns the
fallback edge — the great-circle distance and a duration derived from
the configured average speed, tagged `approximate := true` — and
consequently `computeRoute` still returns a full sequence (a
permutation of the destinations) for every destination set within the
capacity cap, with no unhandled failure. -/
theorem getEdge_fallback_computeRoute_total
    (upstream : Coord → Coord → TravelMode → Option Edge)
    (gc : Coord → Coord → Nat) (cfg : CacheConfig)
    (o d : Coord) (mode : TravelMode)
    (hfail : upstream o d mode = none) :
    getEdge upstream gc cfg o d mode = ⟨⟨gc o d, gc o d / cfg.avgSpeed, true⟩, true⟩ ∧
    ∀ (optCfg : OptConfig) (ds : List Destination), ds.length ≤ optCfg.cap →
      ∃ r, computeRoute upstream gc cfg optCfg ds = .ok r ∧ r.sequence ~ ds := by
  constructor
  · rw [getEdge, hfail]
  · intro optCfg ds hcap
    unfold computeRoute optimize
    by_cases hlen : ds.length < 2
    · rw [if_pos hlen]
      exact ⟨_, rfl, List.Perm.refl ds⟩
    · rw [if_neg hlen, if_neg (Nat.not_lt.mpr hcap)]
      exact ⟨_, rfl, optimizeCore_perm _ _ ds⟩

/-- Witness for **C7**: with a provider that always times out, the
edge from (0,0) to (3,4) is the great-circle fallback (distance 7,
duration 0 at average speed 10, `approximate := true`, `failed :=
true`), and `computeRoute` on the six-destination set still returns a
full sequence. -/
theorem getEdge_fallback_computeRoute_total_witness :
    getEdge wUpstream wGc ⟨10⟩ ⟨0, 0⟩ ⟨3, 4⟩ .driving = ⟨⟨7, 0, true⟩, true⟩ ∧
    ∃ r, computeRoute wUpstream wGc ⟨10⟩ cexCfg cexDs = .ok r ∧ r.sequence ~ cexDs :=
  ⟨(getEdge_fallback_computeRoute_total wUpstream wGc ⟨10⟩ ⟨0, 0⟩ ⟨3, 4⟩ .driving rfl).1,
   (getEdge_fallback_computeRoute_total wUpstream wGc ⟨10⟩ ⟨0, 0⟩ ⟨3, 4⟩ .driving rfl).2
     cexCfg cexDs (by decide)⟩

/-- **C9.** `handleSupabaseError` never returns normally: its thrown
`SupabaseError` (the value in this embedding) has code `'404'` when the
input's code is `'PGRST301'`, `'409'` when it is `'23505'`, `'500'`
otherwise, and always carries the original error as `details`. -/
theorem handleSupabaseError_spec (e : PgError) :
    (handleSupabaseError e).code =
      (if e.code = some "PGRST301" then "404"
       else if e.code = some "23505" then "409" else "500") ∧
    (handleSupabaseError e).details = e ∧
    (handleSupabaseError e).name = "SupabaseError" := by
  unfold handleSupabaseError
  by_cases h1 : e.code = some "PGRST301" <;> by_cases h2 : e.code = some "23505" <;>
    simp [h1, h2]

/-- **C10.** For a request matched by `'/api/:path*'`, the middleware
returns a 429 "Too Many Requests" response with `Retry-After '900'`
exactly when the requesting IP already has `maxRequests` (100) or more
recorded requests within the preceding 15-minute window, leaving the
rate-limiter map untouched; otherwise it records the request timestamp
for that IP and forwards the request unchanged. -/
theorem middleware_rate_limit (limiter : RateLimiter) (request : NextRequest) (now : Int) :
    (maxRequests ≤
        ((getEntry limiter (clientIp request)).filter (fun time => now - time < windowMs)).length →
      middleware limiter request now = (.tooManyRequests 429 "Too Many Requests" "900", limiter)) ∧
    (((getEntry limiter (clientIp request)).filter (fun time => now - time < windowMs)).length <
        maxRequests →
      middleware limiter request now =
        (.next, setEntry limiter (clientIp request)
          (((getEntry limiter (clientIp request)).filter (fun time => now - time < windowMs))
            ++ [now]))) := by
  constructor
  · intro h
    simp only [middleware, if_pos h]
  · intro h
    simp only [middleware, if_neg (Nat.not_le.mpr h)]

/-- Witness for **C10** at concrete inputs: an IP with 100 recent
requests is rejected with the map unchanged, and a first-time IP is
forwarded with its timestamp recorded. -/
theorem middleware_rate_limit_witness :
    middleware [("1.2.3.4", List.replicate 100 (5 : Int))] ⟨some "1.2.3.4", none⟩ 10 =
      (.tooManyRequests 429 "Too Many Requests" "900",
       [("1.2.3.4", List.replicate 100 (5 : Int))]) ∧
    middleware [] ⟨none, some "9.9.9.9"⟩ 10 = (.next, [("9.9.9.9", [10])]) := by
  refine ⟨(middleware_rate_limit _ _ _).1 (by decide), ?_⟩
  have h := (middleware_rate_limit [] ⟨none, some "9.9.9.9"⟩ 10).2 (by decide)
  exact h.trans (by decide)

end TabiScript
